import Mathlib

/-!
Verification of the `bench_helper` measurement layer
(`src/rust/bench_helper/src/{alloc.rs, perf.rs, lib.rs}`).

Shallow embedding conventions:
* Rust `usize` / `u64` counters are modelled as `Nat`; the counts involved are
  event tallies far from the word-size boundary and the source performs no
  wrapping arithmetic on them.
* Rust `f64` is modelled as exact rationals `ℚ`; IEEE rounding is not modelled.
* Fallible OS calls are modelled as `Except String` values; a Rust
  `panic!`/`expect` is an `Except.error` carrying the panic message.
* Interior mutability (`RefCell`) becomes explicit state passing: operations
  take the current state and return the updated one.
-/

namespace BenchHelper

/-! ### Model of the external `stats_alloc` crate

The instrumented global allocator exposes cumulative event counters
(`Stats`) and a `Region` that snapshots the counters at creation and
reports the componentwise difference (`change`) between the current
counters and that baseline.  Only the three count fields used by
`alloc.rs` are modelled; counters are monotonically non-decreasing, so
`Nat` subtraction coincides with the crate's `usize` subtraction. -/

structure Stats where
  allocations : Nat
  deallocations : Nat
  reallocations : Nat
deriving DecidableEq, Repr

/-- A `Region` records the allocator's cumulative stats at its creation. -/
structure Region where
  initial_stats : Stats
deriving DecidableEq, Repr

/-- `Region::change`: the difference between the allocator's current cumulative
stats and the baseline captured at region creation. -/
def Region.change (r : Region) (current : Stats) : Stats :=
  { allocations := current.allocations - r.initial_stats.allocations
    deallocations := current.deallocations - r.initial_stats.deallocations
    reallocations := current.reallocations - r.initial_stats.reallocations }

/-! ### Model of `criterion::Throughput` (two variants, as matched in the source) -/

inductive Throughput where
  | Bytes (n : Nat)
  | Elements (n : Nat)
deriving DecidableEq, Repr

/-! ### `alloc.rs` -/

inductive Measure where
  | Allocations
  | Deallocations
  | Reallocations
deriving DecidableEq, Repr

def Measure.name : Measure → String
  | .Allocations => "allocations"
  | .Deallocations => "deallocations"
  | .Reallocations => "reallocations"

/-- The component of a cumulative-stats record selected by a sub-measure
(specification-side selector used to state properties of start/end). -/
def Measure.select : Measure → Stats → Nat
  | .Allocations, s => s.allocations
  | .Deallocations, s => s.deallocations
  | .Reallocations, s => s.reallocations

def Measure.throughput_name : Measure → Throughput → String
  | .Allocations, .Bytes _ => "allocations/byte"
  | .Deallocations, .Bytes _ => "deallocations/byte"
  | .Reallocations, .Bytes _ => "reallocations/byte"
  | .Allocations, .Elements _ => "allocations/element"
  | .Deallocations, .Elements _ => "deallocations/element"
  | .Reallocations, .Elements _ => "reallocations/element"

/-- The `Alloc` measurement: a region (behind a `RefCell` in Rust; the
allocator's current cumulative stats are passed explicitly to each read)
plus the immutable sub-measure selector. -/
structure Alloc where
  region : Region
  sub_measure : Measure
deriving DecidableEq, Repr

def Alloc.new (region : Region) (sub_measure : Measure) : Alloc :=
  { sub_measure, region }

def Alloc.allocations (region : Region) : Alloc := Alloc.new region .Allocations

def Alloc.dellocations (region : Region) : Alloc := Alloc.new region .Deallocations

def Alloc.reallocations (region : Region) : Alloc := Alloc.new region .Reallocations

/-- `Alloc::start`: read the region's change against the allocator's current
cumulative stats and select the sub-measure's component. -/
def Alloc.start (a : Alloc) (current : Stats) : Nat :=
  let stats := a.region.change current
  match a.sub_measure with
  | .Allocations => stats.allocations
  | .Deallocations => stats.deallocations
  | .Reallocations => stats.reallocations

/-- `Alloc::end`: identical read; the intermediate argument `_i` is ignored. -/
def Alloc.«end» (a : Alloc) (current : Stats) (_i : Nat) : Nat :=
  let stats := a.region.change current
  match a.sub_measure with
  | .Allocations => stats.allocations
  | .Deallocations => stats.deallocations
  | .Reallocations => stats.reallocations

def Alloc.add (_a : Alloc) (v1 v2 : Nat) : Nat := v1 + v2

def Alloc.zero (_a : Alloc) : Nat := 0

/-! IEEE binary64 model for `Alloc::to_f64`.  The source computes
`(*value as f64) + 0.0001`; both the cast and the addition round to the
nearest representable double (ties to even).  The model represents doubles
by their exact rational values and rounds onto the grid of the result's
binade (53-bit significand); subnormal and overflow ranges do not arise
for `usize` counts. -/

/-- Round onto the grid of integer multiples of `u`: nearest, ties to even
(the IEEE 754 rounding rule, stated on exact rationals). -/
def roundNearestEven (u x : ℚ) : ℚ :=
  if x - ⌊x / u⌋ * u < u / 2 then ⌊x / u⌋ * u
  else if u / 2 < x - ⌊x / u⌋ * u then (⌊x / u⌋ + 1) * u
  else if ⌊x / u⌋ % 2 = 0 then ⌊x / u⌋ * u
  else (⌊x / u⌋ + 1) * u

/-- The binade exponent of a rational `x ≥ 1`: the `k` with `2^k ≤ x < 2^(k+1)`. -/
def binade (x : ℚ) : Nat := Nat.log2 ⌊x⌋.toNat

/-- The gap between consecutive binary64 values in the binade of `x ≥ 1`. -/
def ulp (x : ℚ) : ℚ := 2 ^ binade x / 2 ^ 52

/-- Round a rational `x ≥ 1` to the nearest binary64 value (ties to even). -/
def f64Round (x : ℚ) : ℚ := roundNearestEven (ulp x) x

/-- Rust's `value as f64` for a `usize` count. -/
def castF64 (v : Nat) : ℚ := if v = 0 then 0 else f64Round v

/-- The binary64 value of the literal `0.0001` (bits 0x3F1A36E2EB1C432D). -/
def eps64 : ℚ := 7378697629483821 / 2 ^ 66

/-- `Alloc::to_f64`: `(*value as f64) + 0.0001` under IEEE binary64
semantics.  For `value = 0` the sum is the epsilon literal itself, which
is exactly representable, so no rounding occurs. -/
def Alloc.to_f64 (_a : Alloc) (value : Nat) : ℚ :=
  if value = 0 then eps64 else f64Round (castF64 value + eps64)

/-! Numeric rendering: Rust's `format!("{:.4} ...", v)` prints `v` with four
digits after the decimal point.  The exact digit string is not load-bearing
for any claim; `fmt4` renders the rational rounded at the fourth decimal. -/

def fmt4 (q : ℚ) : String :=
  let n : Int := round (q * 10000)
  let sign := if n < 0 then "-" else ""
  let m := n.natAbs
  let frac := toString (m % 10000)
  let pad := String.mk (List.replicate (4 - frac.length) '0')
  sign ++ toString (m / 10000) ++ "." ++ pad ++ frac

/-! `ValueFormatter` implementation for `Alloc` -/

def Alloc.format_value (a : Alloc) (value : ℚ) : String :=
  fmt4 value ++ " " ++ a.sub_measure.name

def Alloc.format_throughput (a : Alloc) (throughput : Throughput) (value : ℚ) : String :=
  match throughput with
  | .Bytes b => fmt4 (value / b) ++ " " ++ a.sub_measure.name ++ "/byte"
  | .Elements b => fmt4 (value / b) ++ " " ++ a.sub_measure.name ++ "/element"

def Alloc.scale_values (a : Alloc) (_typical_value : ℚ) (_values : List ℚ) : String :=
  a.sub_measure.name

/-- `Alloc::scale_throughputs`: divide every element of the batch by the
throughput denominator (in-place in Rust; returned as a new list here) and
return the sub-measure's throughput label. -/
def Alloc.scale_throughputs (a : Alloc) (_typical_value : ℚ) (throughput : Throughput)
    (values : List ℚ) : List ℚ × String :=
  match throughput with
  | .Bytes n => (values.map (fun val => val / (n : ℚ)), a.sub_measure.throughput_name throughput)
  | .Elements n => (values.map (fun val => val / (n : ℚ)), a.sub_measure.throughput_name throughput)

def Alloc.scale_for_machines (a : Alloc) (_values : List ℚ) : String :=
  a.sub_measure.name

/-! ### Model of the external `perfcnt` crate

A bound `PerfCounter` supports fallible `start`/`stop`/`read`/`reset` OS
calls.  Each operation's possible OS failure is injected through an
`Option String` field (`none` = the call succeeds, `some e` = the call
fails with OS error `e`), and every successful call is appended to `log`
so that call-order properties can be stated. -/

inductive PerfOp where
  | start
  | stop
  | read
  | reset
deriving DecidableEq, Repr

structure PerfCounter where
  value : Nat
  enabled : Bool
  startErr : Option String
  stopErr : Option String
  readErr : Option String
  resetErr : Option String
  log : List PerfOp
deriving DecidableEq, Repr

/-- Enable the counter. -/
def PerfCounter.start (c : PerfCounter) : Except String PerfCounter :=
  match c.startErr with
  | some e => .error e
  | none => .ok { c with enabled := true, log := c.log ++ [.start] }

/-- Disable the counter; the accumulated count is retained. -/
def PerfCounter.stop (c : PerfCounter) : Except String PerfCounter :=
  match c.stopErr with
  | some e => .error e
  | none => .ok { c with enabled := false, log := c.log ++ [.stop] }

/-- Read the accumulated count. -/
def PerfCounter.read (c : PerfCounter) : Except String (Nat × PerfCounter) :=
  match c.readErr with
  | some e => .error e
  | none => .ok (c.value, { c with log := c.log ++ [.read] })

/-- Reset the accumulated count to zero. -/
def PerfCounter.reset (c : PerfCounter) : Except String PerfCounter :=
  match c.resetErr with
  | some e => .error e
  | none => .ok { c with value := 0, log := c.log ++ [.reset] }

/-! ### `perf.rs` -/

def PERF_ERR : String :=
  "Unable to bind to perf capabilites\n\nThis is probably due to permissions, if this is an issue then setting the perf permissions\nin `/proc/sys/kernel/perf_event_paranoid` will enable this benchmark. This can\nbe done like so\n\n```\necho 1 | sudo tee /proc/sys/kernel/perf_event_paranoid\n```\n\nFor more details see:\nhttps://www.kernel.org/doc/html/latest/admin-guide/perf-security.html\n\nOtherwise this benchmark measurement will be skipped\n"

structure Perf where
  units : String
  counter : PerfCounter
deriving DecidableEq, Repr

/-- `Perf::new`: the builder chain `for_pid(..).disable().finish()` is
abstracted into its outcome `finish` (a bound counter, or the OS error).
On failure the diagnostic is written to stderr (returned as the second
component) and the constructor yields `none`; on success it yields the
instance and writes nothing. -/
def Perf.new (units : String) (finish : Except String PerfCounter) :
    Option Perf × List String :=
  match finish.map (fun counter => Perf.mk units counter) with
  | .ok m => (some m, [])
  | .error e => (none, [PERF_ERR ++ "\nReason:" ++ e])

/-- The hardware event types requested by the driver (`perfcnt`'s
`HardwareEventType`, restricted to the constructors `lib.rs` uses). -/
inductive HardwareEventType where
  | RefCPUCycles
  | StalledCyclesFrontend
  | StalledCyclesBackend
  | CacheMisses
  | BranchMisses
deriving DecidableEq, Repr

/-- `Perf::hardware`: builds from a hardware event; the OS-level outcome of
realizing the event's descriptor is passed in as `finish`. -/
def Perf.hardware (units : String) (_event : HardwareEventType)
    (finish : Except String PerfCounter) : Option Perf × List String :=
  Perf.new units finish

/-- `Perf::start` (`Measurement` impl): arm the counter via the OS call,
panicking with the `expect` message on failure, and return the placeholder
intermediate `0`. -/
def Perf.start (p : Perf) : Except String (Nat × Perf) :=
  match p.counter.start with
  | .error e => .error ("Could not read perf counter: " ++ e)
  | .ok c => .ok (0, { p with counter := c })

/-- `Perf::end` (`Measurement` impl): stop the counter, read its accumulated
count, reset it, and return the count read; each OS failure panics with the
corresponding `expect` message.  The intermediate `_i` is ignored. -/
def Perf.«end» (p : Perf) (_i : Nat) : Except String (Nat × Perf) :=
  match p.counter.stop with
  | .error e => .error ("Could not stop perf counter: " ++ e)
  | .ok c1 =>
    match c1.read with
    | .error e => .error ("Could not read perf counter: " ++ e)
    | .ok (ret, c2) =>
      match c2.reset with
      | .error e => .error ("Could not reset perf counter: " ++ e)
      | .ok c3 => .ok (ret, { p with counter := c3 })

def Perf.add (_p : Perf) (v1 v2 : Nat) : Nat := v1 + v2

def Perf.zero (_p : Perf) : Nat := 0

def Perf.to_f64 (_p : Perf) (value : Nat) : ℚ := (value : ℚ)

/-! `ValueFormatter` implementation for `Perf` -/

def Perf.format_value (p : Perf) (value : ℚ) : String :=
  fmt4 value ++ " " ++ p.units

def Perf.format_throughput (p : Perf) (throughput : Throughput) (value : ℚ) : String :=
  match throughput with
  | .Bytes b => fmt4 (value / b) ++ " " ++ p.units ++ "/byte"
  | .Elements b => fmt4 (value / b) ++ " " ++ p.units ++ "/element"

def Perf.scale_values (p : Perf) (_typical_value : ℚ) (_values : List ℚ) : String :=
  p.units

/-- `Perf::scale_throughputs`: divide every element by the throughput
denominator and return the fixed label "events/byte" or "events/element"
(NB: the label does not use `self.units`). -/
def Perf.scale_throughputs (_p : Perf) (_typical_value : ℚ) (throughput : Throughput)
    (values : List ℚ) : List ℚ × String :=
  match throughput with
  | .Bytes n => (values.map (fun val => val / (n : ℚ)), "events/byte")
  | .Elements n => (values.map (fun val => val / (n : ℚ)), "events/element")

def Perf.scale_for_machines (_p : Perf) (_values : List ℚ) : String :=
  "events"

/-! ### `lib.rs`: the `bench_main!` expansion, per block

The expanded `main` calls each registered group function once per
measurement, passing a display name; groups are identified here by their
names and each group invocation is recorded as a `RunEvent`.  Only the
per-block structure is modelled: a whole-driver model is deliberately not
given, because the expansion does not name-resolve (the stalled back-end
cycles block of the source, lib.rs line 175, passes an identifier that no
binding supplies — recorded syntactically below), so the expanded `main`
as written has no run to model. -/

inductive RunEvent where
  | run (group : String) (measure_name : String)
deriving DecidableEq, Repr

/-- One `$( $group(measure_name, measure); )+` expansion: every registered
group runs, in registration order, under the given measurement name. -/
def runGroups (groups : List String) (measure_name : String) : List RunEvent :=
  groups.map (fun g => RunEvent.run g measure_name)

/-- One `if let Some(x) = Perf::hardware(..) { $( $group(name, x); )+ }`
block of the expansion: the groups run only when the constructor returned
an instance, and are skipped when it returned `none`. -/
def runHardware (groups : List String) (measure_name : String)
    (outcome : Option Perf × List String) : List RunEvent × List String :=
  match outcome.1 with
  | some _ => (runGroups groups measure_name, outcome.2)
  | none => ([], outcome.2)

/-! Name-resolution model of the stalled back-end cycles block.  Rust
resolves the argument of the group call against the local bindings in
scope at that point of the expanded `main`; the `if let` there binds
`stalled_cpu_cycles`, and the earlier bindings still in scope are the
unconditional measurement locals (the bindings of the other `if let`
blocks end with their blocks). -/

/-- The local value bindings in scope at the group call inside the stalled
back-end cycles block of the expanded `bench_main!` body (lib.rs 174-176). -/
def bench_main_scope_at_stalled_be_call : List String :=
  ["GLOBAL", "wall_time", "allocs", "reallocs", "stalled_cpu_cycles"]

/-- The identifier the source passes to the group call in that block
(lib.rs line 175). -/
def bench_main_stalled_be_call_arg : String := "stalled_be_cycles"

/-! ## Theorems -/

/-- C1: for every allocator state, `Alloc::start` and `Alloc::end` both
return the current cumulative count of the selected sub-measure since the
region baseline was created; `end` does not subtract the intermediate, so
two calls with the same allocator state return the same value. -/
theorem alloc_start_end_cumulative (a : Alloc) (current : Stats) (i i1 i2 : Nat) :
    Alloc.start a current = a.sub_measure.select (a.region.change current)
      ∧ Alloc.«end» a current i = a.sub_measure.select (a.region.change current)
      ∧ Alloc.start a current = Alloc.«end» a current i
      ∧ Alloc.«end» a current i1 = Alloc.«end» a current i2 := by
  obtain ⟨r, m⟩ := a
  cases m <;> exact ⟨rfl, rfl, rfl, rfl⟩

/-- C2: `Perf::new` (and `Perf::hardware`) on a failed OS bind writes the
permission diagnostic to stderr and returns `none` (never an error, never a
panic); on a successful bind it returns the instance and writes nothing;
and an `if let`-guarded hardware block of the expansion skips exactly a
counter whose construction returned `none` while an available one runs all
groups (the whole-driver consequence fails for the unrelated reason
recorded under the stalled back-end cycles slip). -/
theorem perf_unavailable_soft_failure (units e : String) (c : PerfCounter)
    (groups : List String) (name : String) (ev : HardwareEventType) :
    (Perf.new units (Except.error e)).1 = none
      ∧ (Perf.new units (Except.error e)).2 = [PERF_ERR ++ "\nReason:" ++ e]
      ∧ (Perf.new units (Except.ok c)).1 = some (Perf.mk units c)
      ∧ (Perf.new units (Except.ok c)).2 = []
      ∧ (runHardware groups name (Perf.hardware units ev (Except.error e))).1 = []
      ∧ (runHardware groups name (Perf.hardware units ev (Except.ok c))).1 =
          runGroups groups name := by
  exact ⟨rfl, rfl, rfl, rfl, rfl, rfl⟩

/-- C3: `Perf::end` performs exactly stop, then read, then reset, in that
order, on the bound counter and returns the count obtained from read; if
any of the three OS calls fails, the call panics with a diagnostic naming
the failed operation instead of returning a value. -/
theorem perf_end_stop_read_reset (units : String) (v : Nat) (en : Bool)
    (st se re ze : Option String) (lg : List PerfOp) (i : Nat) :
    Perf.«end» (Perf.mk units (PerfCounter.mk v en st se re ze lg)) i =
      match se with
      | some e => Except.error ("Could not stop perf counter: " ++ e)
      | none =>
        match re with
        | some e => Except.error ("Could not read perf counter: " ++ e)
        | none =>
          match ze with
          | some e => Except.error ("Could not reset perf counter: " ++ e)
          | none =>
            Except.ok (v, Perf.mk units
              (PerfCounter.mk 0 false st none none none
                (lg ++ [PerfOp.stop, PerfOp.read, PerfOp.reset]))) := by
  cases se <;> cases re <;> cases ze <;>
    simp [Perf.«end», PerfCounter.stop, PerfCounter.read, PerfCounter.reset]

/-- C4: at the stalled back-end cycles group call of the expanded
`bench_main!` body, the identifier the source passes is not among the
bindings in scope there (the `if let` binds `stalled_cpu_cycles`), so the
expanded `main` does not name-resolve. -/
theorem bench_main_stalled_be_unresolved :
    bench_main_stalled_be_call_arg ∉ bench_main_scope_at_stalled_be_call := by
  decide

/-- Rounding to the grid of multiples of `u` moves a point by at most half
a grid gap downwards. -/
theorem le_roundNearestEven (u x : ℚ) (hu : 0 < u) :
    x - u / 2 ≤ roundNearestEven u x := by
  have h1 : (⌊x / u⌋ : ℚ) * u ≤ x := (le_div_iff₀ hu).mp (Int.floor_le (x / u))
  have h2 : x < ((⌊x / u⌋ : ℚ) + 1) * u := by
    rw [← div_lt_iff₀ hu]
    exact_mod_cast Int.lt_floor_add_one (x / u)
  unfold roundNearestEven
  split_ifs <;> [linarith; (push_cast; linarith); linarith; (push_cast; linarith)]

/-- A point already on the grid rounds to itself. -/
theorem roundNearestEven_eq_self (u x : ℚ) (hu : 0 < u) (n : ℤ)
    (hx : x = n * u) : roundNearestEven u x = x := by
  have hfl : ⌊x / u⌋ = n := by
    rw [hx, mul_div_assoc, div_self (ne_of_gt hu), mul_one, Int.floor_intCast]
  unfold roundNearestEven
  rw [hfl, ← hx, sub_self, if_pos (by linarith : (0:ℚ) < u / 2)]

/-- Integer counts below 2^53 are exactly representable in binary64. -/
theorem f64Round_natCast (v : Nat) (h0 : v ≠ 0) (h53 : v < 2 ^ 53) :
    f64Round (v : ℚ) = (v : ℚ) := by
  have hbin : binade (v : ℚ) = Nat.log2 v := by simp [binade]
  have hk : Nat.log2 v ≤ 52 := by
    have := (Nat.log2_lt h0).mpr h53
    omega
  have hpos : (0:ℚ) < 2 ^ Nat.log2 v / 2 ^ 52 := by positivity
  have hx : (v : ℚ) =
      ((v * 2 ^ (52 - Nat.log2 v) : ℕ) : ℤ) * ((2:ℚ) ^ Nat.log2 v / 2 ^ 52) := by
    push_cast
    field_simp
    rw [mul_assoc, ← pow_add, Nat.sub_add_cancel hk]
  have h := roundNearestEven_eq_self ((2:ℚ) ^ Nat.log2 v / 2 ^ 52) (v : ℚ)
    hpos ((v * 2 ^ (52 - Nat.log2 v) : ℕ) : ℤ) hx
  simpa [f64Round, ulp, hbin] using h

/-- For counts below the absorption threshold 2^40, the rounded sum
exceeds the cast (helper for the amended epsilon property). -/
theorem castF64_lt_to_f64 (a : Alloc) (v : Nat) (h0 : v ≠ 0)
    (h40 : v < 2 ^ 40) : castF64 v < Alloc.to_f64 a v := by
  have h53 : v < 2 ^ 53 := lt_trans h40 (by norm_num)
  have hcast : castF64 v = (v : ℚ) := by
    unfold castF64
    rw [if_neg h0, f64Round_natCast v h0 h53]
  have heps_pos : (0:ℚ) < eps64 := by norm_num [eps64]
  have heps_lt1 : eps64 < 1 := by norm_num [eps64]
  have hfx : ⌊(v : ℚ) + eps64⌋ = (v : ℤ) := by
    rw [Int.floor_eq_iff]
    constructor
    · push_cast
      linarith
    · push_cast
      linarith
  have hbin : binade ((v : ℚ) + eps64) = Nat.log2 v := by simp [binade, hfx]
  have hk : Nat.log2 v ≤ 39 := by
    have := (Nat.log2_lt h0).mpr h40
    omega
  have hupos : (0:ℚ) < ulp ((v : ℚ) + eps64) := by
    simp only [ulp]
    positivity
  have hubound : ulp ((v : ℚ) + eps64) / 2 < eps64 := by
    have hle : (2:ℚ) ^ Nat.log2 v ≤ 2 ^ 39 := pow_le_pow_right₀ (by norm_num) hk
    have h1 : ulp ((v : ℚ) + eps64) / 2 ≤ (2:ℚ) ^ 39 / 2 ^ 52 / 2 := by
      simp only [ulp, hbin]
      gcongr
    have h2 : (2:ℚ) ^ 39 / 2 ^ 52 / 2 < eps64 := by norm_num [eps64]
    linarith
  have hge := le_roundNearestEven (ulp ((v : ℚ) + eps64)) ((v : ℚ) + eps64) hupos
  have htf : Alloc.to_f64 a v = roundNearestEven (ulp ((v : ℚ) + eps64)) ((v : ℚ) + eps64) := by
    unfold Alloc.to_f64 f64Round
    rw [if_neg h0, hcast]
  rw [hcast, htf]
  linarith

/-- `Alloc::to_f64` is strictly positive at every count (helper for the
amended epsilon property). -/
theorem to_f64_pos (a : Alloc) (v : Nat) : 0 < Alloc.to_f64 a v := by
  rcases Nat.eq_zero_or_pos v with h0 | h0
  · subst h0
    unfold Alloc.to_f64
    norm_num [eps64]
  · have h0' : v ≠ 0 := Nat.pos_iff_ne_zero.mp h0
    have hulpv_pos : (0:ℚ) < ulp (v : ℚ) := by
      simp only [ulp]
      positivity
    have hlog : (2:ℚ) ^ Nat.log2 v ≤ (v : ℚ) := by
      exact_mod_cast Nat.log2_self_le h0'
    have hbinv : binade (v : ℚ) = Nat.log2 v := by simp [binade]
    have hulpv : ulp (v : ℚ) ≤ (v : ℚ) / 2 ^ 52 := by
      simp only [ulp, hbinv]
      gcongr
    have hrndv := le_roundNearestEven (ulp (v : ℚ)) (v : ℚ) hulpv_pos
    have h5 : (v : ℚ) / 2 ^ 52 / 2 = (v : ℚ) / 2 ^ 53 := by
      rw [div_div]
      norm_num
    have hcastv : (v : ℚ) - (v : ℚ) / 2 ^ 53 ≤ castF64 v := by
      unfold castF64
      rw [if_neg h0']
      unfold f64Round
      linarith
    have hv1 : (1:ℚ) ≤ (v : ℚ) := by exact_mod_cast h0
    have hkey : (1:ℚ) - 1 / 2 ^ 53 ≤ (v : ℚ) - (v : ℚ) / 2 ^ 53 := by
      nlinarith [hv1, show (0:ℚ) ≤ 1 - 1 / 2 ^ 53 by norm_num]
    have heps : (1:ℚ) / 2 ^ 53 < eps64 := by norm_num [eps64]
    have hgoal : Alloc.to_f64 a v =
        roundNearestEven (ulp (castF64 v + eps64)) (castF64 v + eps64) := by
      unfold Alloc.to_f64 f64Round
      rw [if_neg h0']
    rw [hgoal]
    set x := castF64 v + eps64 with hxdef
    have hx1 : (1:ℚ) < x := by
      rw [hxdef]
      linarith
    have hfloor1 : 1 ≤ ⌊x⌋ := by
      rw [Int.le_floor]
      exact_mod_cast le_of_lt hx1
    have hmn0 : ⌊x⌋.toNat ≠ 0 := by omega
    have hmle : ((⌊x⌋.toNat : ℕ) : ℚ) ≤ x := by
      have h1 : ((⌊x⌋.toNat : ℕ) : ℤ) = ⌊x⌋ := Int.toNat_of_nonneg (by omega)
      have h2 : ((⌊x⌋.toNat : ℕ) : ℚ) = ((⌊x⌋ : ℤ) : ℚ) := by exact_mod_cast congrArg Int.cast h1
      rw [h2]
      exact Int.floor_le x
    have hlgx : (2:ℚ) ^ binade x ≤ x := by
      have h3 : (2:ℕ) ^ Nat.log2 ⌊x⌋.toNat ≤ ⌊x⌋.toNat := Nat.log2_self_le hmn0
      have h4 : (2:ℚ) ^ binade x ≤ ((⌊x⌋.toNat : ℕ) : ℚ) := by
        simp only [binade]
        exact_mod_cast h3
      linarith
    have hux_pos : (0:ℚ) < ulp x := by
      simp only [ulp]
      positivity
    have hux : ulp x / 2 ≤ x / 2 ^ 53 := by
      have h6 : ulp x ≤ x / 2 ^ 52 := by
        simp only [ulp]
        gcongr
      have h7 : x / 2 ^ 52 / 2 = x / 2 ^ 53 := by
        rw [div_div]
        norm_num
      linarith
    have hrnd := le_roundNearestEven (ulp x) x hux_pos
    have hx53 : x / 2 ^ 53 < x := div_lt_self (by linarith) (by norm_num)
    linarith

/-- C5 counterexample: at the count 2^40 the epsilon is absorbed by IEEE
binary64 rounding: `to_f64` returns exactly the cast value, so it is not
strictly greater than the raw integer value cast to floating point. -/
theorem alloc_to_f64_epsilon_absorbed :
    Alloc.to_f64 (Alloc.mk (Region.mk (Stats.mk 0 0 0)) Measure.Allocations) (2 ^ 40)
        = castF64 (2 ^ 40)
      ∧ ¬ castF64 (2 ^ 40)
          < Alloc.to_f64 (Alloc.mk (Region.mk (Stats.mk 0 0 0)) Measure.Allocations) (2 ^ 40) := by
  have h0 : (2 ^ 40 : ℕ) ≠ 0 := by norm_num
  have hcast : castF64 (2 ^ 40) = ((2 ^ 40 : ℕ) : ℚ) := by
    unfold castF64
    rw [if_neg h0, f64Round_natCast (2 ^ 40) h0 (by norm_num)]
  have h40 : ((2 ^ 40 : ℕ) : ℚ) = (2 : ℚ) ^ 40 := by push_cast; ring
  have heps_pos : (0:ℚ) < eps64 := by norm_num [eps64]
  have heps_lt1 : eps64 < 1 := by norm_num [eps64]
  have hfx : ⌊(2:ℚ) ^ 40 + eps64⌋ = ((2 ^ 40 : ℕ) : ℤ) := by
    rw [Int.floor_eq_iff]
    constructor
    · push_cast
      linarith
    · push_cast
      linarith
  have hbin : binade ((2:ℚ) ^ 40 + eps64) = 40 := by
    simp only [binade, hfx, Int.toNat_natCast, Nat.log2_two_pow]
  have hulp : ulp ((2:ℚ) ^ 40 + eps64) = (2:ℚ) ^ 40 / 2 ^ 52 := by
    simp only [ulp, hbin]
  have hdiv : ((2:ℚ) ^ 40 + eps64) / ((2:ℚ) ^ 40 / 2 ^ 52) = 2 ^ 52 + eps64 * 2 ^ 12 := by
    field_simp
    ring
  have hfl2 : ⌊(2:ℚ) ^ 52 + eps64 * 2 ^ 12⌋ = ((2 ^ 52 : ℕ) : ℤ) := by
    rw [Int.floor_eq_iff]
    constructor
    · push_cast
      norm_num [eps64]
    · push_cast
      norm_num [eps64]
  have hround : f64Round ((2:ℚ) ^ 40 + eps64) = (2:ℚ) ^ 40 := by
    unfold f64Round
    rw [hulp]
    unfold roundNearestEven
    rw [hdiv, hfl2, if_pos (by push_cast; norm_num [eps64])]
    push_cast
    norm_num
  have hmain : Alloc.to_f64 (Alloc.mk (Region.mk (Stats.mk 0 0 0)) Measure.Allocations) (2 ^ 40)
      = castF64 (2 ^ 40) := by
    unfold Alloc.to_f64
    rw [if_neg h0, hcast, h40, hround]
  exact ⟨hmain, by rw [hmain]; exact lt_irrefl _⟩

/-- C5 (amended): `Alloc::to_f64` computes `(value as f64) + 0.0001` in
IEEE binary64 arithmetic; the result is strictly greater than the cast
value for every count below 2^40 (above that threshold the epsilon can be
absorbed by rounding), and is strictly positive for every count, in
particular at 0. -/
theorem alloc_to_f64_epsilon_ieee (a : Alloc) (v : Nat) :
    (v < 2 ^ 40 → castF64 v < Alloc.to_f64 a v) ∧ 0 < Alloc.to_f64 a v := by
  refine ⟨fun h40 => ?_, to_f64_pos a v⟩
  rcases Nat.eq_zero_or_pos v with h0 | h0
  · subst h0
    have hc0 : castF64 0 = 0 := rfl
    rw [hc0]
    exact to_f64_pos a 0
  · exact castF64_lt_to_f64 a v (Nat.pos_iff_ne_zero.mp h0) h40

/-- C5 amended witness: the amended theorem instantiated at the count 3. -/
theorem alloc_to_f64_epsilon_ieee_witness :
    castF64 3 < Alloc.to_f64 (Alloc.mk (Region.mk (Stats.mk 0 0 0)) Measure.Allocations) 3
      ∧ 0 < Alloc.to_f64 (Alloc.mk (Region.mk (Stats.mk 0 0 0)) Measure.Allocations) 3 :=
  ⟨(alloc_to_f64_epsilon_ieee (Alloc.mk (Region.mk (Stats.mk 0 0 0)) Measure.Allocations) 3).1
      (by norm_num),
   (alloc_to_f64_epsilon_ieee (Alloc.mk (Region.mk (Stats.mk 0 0 0)) Measure.Allocations) 3).2⟩

/-- C6: reading the region's change immediately after the snapshot (the
current cumulative stats equal the baseline) reports zero allocations,
deallocations and reallocations, and `Alloc::end` returns 0 there; `end`
is a total function, so it cannot panic on an empty interval. -/
theorem alloc_end_empty_interval (a : Alloc) (i : Nat) :
    a.region.change a.region.initial_stats = Stats.mk 0 0 0
      ∧ Alloc.«end» a a.region.initial_stats i = 0 := by
  obtain ⟨⟨⟨x, y, z⟩⟩, m⟩ := a
  cases m <;> simp [Region.change, Alloc.«end»]

/-- C7: for both measurements, `add` is commutative and associative and
`zero` is its identity (plain numeric sum with zero 0). -/
theorem add_comm_assoc_identity (a : Alloc) (p : Perf) (v1 v2 v3 : Nat) :
    Alloc.add a v1 v2 = Alloc.add a v2 v1
      ∧ Alloc.add a v1 (Alloc.zero a) = v1
      ∧ Alloc.zero a = 0
      ∧ Alloc.add a (Alloc.add a v1 v2) v3 = Alloc.add a v1 (Alloc.add a v2 v3)
      ∧ Perf.add p v1 v2 = Perf.add p v2 v1
      ∧ Perf.add p v1 (Perf.zero p) = v1
      ∧ Perf.zero p = 0
      ∧ Perf.add p (Perf.add p v1 v2) v3 = Perf.add p v1 (Perf.add p v2 v3) := by
  exact ⟨Nat.add_comm v1 v2, rfl, rfl, Nat.add_assoc v1 v2 v3,
    Nat.add_comm v1 v2, rfl, rfl, Nat.add_assoc v1 v2 v3⟩

/-- C8: for both formatters, `scale_throughputs` with a byte throughput of
B divides every element of the batch by B and returns a label ending in
"/byte", and with an element throughput of E divides every element by E
and returns a label ending in "/element". -/
theorem scale_throughputs_divides (a : Alloc) (p : Perf) (tv : ℚ)
    (values : List ℚ) (B E : Nat) :
    (Alloc.scale_throughputs a tv (Throughput.Bytes B) values).1 =
        values.map (fun v => v / (B : ℚ))
      ∧ (∃ s, (Alloc.scale_throughputs a tv (Throughput.Bytes B) values).2 = s ++ "/byte")
      ∧ (Alloc.scale_throughputs a tv (Throughput.Elements E) values).1 =
          values.map (fun v => v / (E : ℚ))
      ∧ (∃ s, (Alloc.scale_throughputs a tv (Throughput.Elements E) values).2 = s ++ "/element")
      ∧ (Perf.scale_throughputs p tv (Throughput.Bytes B) values).1 =
          values.map (fun v => v / (B : ℚ))
      ∧ (Perf.scale_throughputs p tv (Throughput.Bytes B) values).2 = "events" ++ "/byte"
      ∧ (Perf.scale_throughputs p tv (Throughput.Elements E) values).1 =
          values.map (fun v => v / (E : ℚ))
      ∧ (Perf.scale_throughputs p tv (Throughput.Elements E) values).2 = "events" ++ "/element" := by
  obtain ⟨r, m⟩ := a
  cases m
  · exact ⟨rfl, ⟨"allocations", rfl⟩, rfl, ⟨"allocations", rfl⟩, rfl, rfl, rfl, rfl⟩
  · exact ⟨rfl, ⟨"deallocations", rfl⟩, rfl, ⟨"deallocations", rfl⟩, rfl, rfl, rfl, rfl⟩
  · exact ⟨rfl, ⟨"reallocations", rfl⟩, rfl, ⟨"reallocations", rfl⟩, rfl, rfl, rfl, rfl⟩

/-- C9 counterexample: a hardware-counter measurement constructed with the
unit label "cycles" yields the scale label "events/byte" from
`scale_throughputs`, not the construction-supplied label with "/byte"
appended. -/
theorem perf_scale_label_counterexample :
    (Perf.scale_throughputs
        (Perf.mk "cycles" (PerfCounter.mk 0 false none none none none []))
        0 (Throughput.Bytes 1) [1]).2
      = "events/byte"
    ∧ (Perf.scale_throughputs
        (Perf.mk "cycles" (PerfCounter.mk 0 false none none none none []))
        0 (Throughput.Bytes 1) [1]).2
      ≠ "cycles" ++ "/byte" := by
  exact ⟨rfl, by decide⟩

/-- C9 (amended): `format_value` renders "<value> <unit-label>" with the
construction-supplied unit label, and `format_throughput` appends "/byte"
or "/element" to that label; `scale_throughputs`, however, returns the
fixed labels "events/byte" and "events/element" independent of the
construction-supplied label. -/
theorem perf_format_labels (units : String) (c : PerfCounter) (v tv : ℚ)
    (b n : Nat) (values : List ℚ) :
    (∃ s, Perf.format_value (Perf.mk units c) v = s ++ " " ++ units)
      ∧ (∃ s, Perf.format_throughput (Perf.mk units c) (Throughput.Bytes b) v =
          s ++ " " ++ units ++ "/byte")
      ∧ (∃ s, Perf.format_throughput (Perf.mk units c) (Throughput.Elements n) v =
          s ++ " " ++ units ++ "/element")
      ∧ (Perf.scale_throughputs (Perf.mk units c) tv (Throughput.Bytes b) values).2 =
          "events/byte"
      ∧ (Perf.scale_throughputs (Perf.mk units c) tv (Throughput.Elements n) values).2 =
          "events/element" := by
  exact ⟨⟨fmt4 v, rfl⟩, ⟨fmt4 (v / b), rfl⟩, ⟨fmt4 (v / n), rfl⟩, rfl, rfl⟩

/-- C10: for both measurements, the value returned by `end` is independent
of the intermediate argument: with the same underlying counter/allocator
state, `end i1` and `end i2` coincide for any intermediates. -/
theorem end_ignores_intermediate (a : Alloc) (current : Stats) (p : Perf)
    (i1 i2 : Nat) :
    Alloc.«end» a current i1 = Alloc.«end» a current i2
      ∧ Perf.«end» p i1 = Perf.«end» p i2 := by
  exact ⟨rfl, rfl⟩

end BenchHelper
